import Mathlib

/-!
Verification development for the realm layer-4 relay.

This file gives a shallow embedding of the parts of the code that the
claims C1..C10 are about:

* `realm_core/src/monitor.rs` — `TrafficStats`, `ConnectionMetrics` and its
  operations `update_tx`, `update_rx`, `calculate_speed`.
* `realm_core/src/tcp/plain.rs` — `run_relay` (Linux branch: zero-copy
  attempt with buffered fallback on `InvalidInput`).
* `realm_core/src/tcp/middle.rs` — the relay phase of `connect_and_relay`
  (metrics insertion before the copy, removal after it).
* `realm_core/src/api.rs` — the authentication middleware and the
  `add_rule` handler.
* `realm_lb/src/balancer.rs` — `Strategy::from` and
  `Balancer::parse_from_str`.
* `realm_core/src/udp/middle.rs` — `group_by_inner` / `group_by_addr`
  and the `send_back` return-path task.

Conventions: `u64` counters are natural numbers reduced modulo `2 ^ 64`
(release-build wrapping semantics of `+=`); `Instant`s are nanosecond
timestamps (`Nat`), and `Instant::duration_since` saturates, which is
exactly truncated `Nat` subtraction; `f64` speed values are modelled as
exact rationals; Rust strings are `List Char`; fallible operations return
`Except`/`Option`, and a Rust `panic!` is an explicit `panicked` outcome.
-/

/-- Modulus of the `u64` machine integers used for the byte counters. -/
def u64Mod : Nat := 2 ^ 64

/-- Embeds `TrafficStats` from `realm_core/src/monitor.rs`. -/
structure TrafficStats where
  tx_bytes : Nat
  rx_bytes : Nat
deriving DecidableEq

/-- Embeds `ConnectionMetrics` from `realm_core/src/monitor.rs`.
Timestamps are nanoseconds; the two `f64` speeds are exact rationals. -/
structure ConnectionMetrics where
  traffic : TrafficStats
  start_time : Nat
  last_tx_bytes : Nat
  last_rx_bytes : Nat
  last_speed_update_time : Nat
  upload_speed_bps : ℚ
  download_speed_bps : ℚ
deriving DecidableEq

/-- Embeds `ConnectionMetrics::new` (the current instant is a parameter). -/
def ConnectionMetrics.new (now : Nat) : ConnectionMetrics :=
  { traffic := ⟨0, 0⟩
    start_time := now
    last_tx_bytes := 0
    last_rx_bytes := 0
    last_speed_update_time := now
    upload_speed_bps := 0
    download_speed_bps := 0 }

/-- Embeds `ConnectionMetrics::update_tx`: `self.traffic.tx_bytes += bytes`
on a `u64` (wrapping addition). -/
def ConnectionMetrics.update_tx (m : ConnectionMetrics) (bytes : Nat) : ConnectionMetrics :=
  { m with traffic := ⟨(m.traffic.tx_bytes + bytes) % u64Mod, m.traffic.rx_bytes⟩ }

/-- Embeds `ConnectionMetrics::update_rx`: `self.traffic.rx_bytes += bytes`
on a `u64` (wrapping addition). -/
def ConnectionMetrics.update_rx (m : ConnectionMetrics) (bytes : Nat) : ConnectionMetrics :=
  { m with traffic := ⟨m.traffic.tx_bytes, (m.traffic.rx_bytes + bytes) % u64Mod⟩ }

/-- Embeds `ConnectionMetrics::calculate_speed`.  `now` is the sampled
instant in nanoseconds; `duration_since` saturates (truncated subtraction);
`as_secs_f64` is division by `10 ^ 9` over the rationals, and the guard is
the code's `seconds < 1e-6`.  The byte deltas use `saturating_sub`. -/
def ConnectionMetrics.calculate_speed (m : ConnectionMetrics) (now : Nat) : ConnectionMetrics :=
  let duration : Nat := now - m.last_speed_update_time
  let seconds : ℚ := (duration : ℚ) / 10 ^ 9
  if seconds < 1 / 10 ^ 6 then
    m
  else
    let tx_diff : Nat := m.traffic.tx_bytes - m.last_tx_bytes
    let rx_diff : Nat := m.traffic.rx_bytes - m.last_rx_bytes
    { m with
      upload_speed_bps := (tx_diff : ℚ) * 8 / seconds
      download_speed_bps := (rx_diff : ℚ) * 8 / seconds
      last_tx_bytes := m.traffic.tx_bytes
      last_rx_bytes := m.traffic.rx_bytes
      last_speed_update_time := now }

/-- Error kinds of `std::io::Error` distinguished by `run_relay`. -/
inductive IoErrorKind where
  | invalidInput
  | otherErr
deriving DecidableEq

/-- Result of one bidirectional copy: either `(bytes a→b, bytes b→a)` or an
I/O error. -/
abbrev CopyResult := Except IoErrorKind (Nat × Nat)

/-- Embeds `run_relay` from `realm_core/src/tcp/plain.rs` (the
`target_os = "linux"` branch).  The outcomes of the two copies
(`realm_io::bidi_zero_copy` and the buffered `realm_io::bidi_copy`
fallback) are parameters; the function returns the updated metrics and the
value the Rust function returns. -/
def run_relay (metrics : ConnectionMetrics) (zero_copy_result fallback_result : CopyResult) :
    ConnectionMetrics × Except IoErrorKind Unit :=
  match zero_copy_result with
  | .ok (a_to_b, b_to_a) =>
      ((metrics.update_tx a_to_b).update_rx b_to_a, .ok ())
  | .error .invalidInput =>
      match fallback_result with
      | .ok (a_to_b, b_to_a) =>
          ((metrics.update_tx a_to_b).update_rx b_to_a, .ok ())
      | .error e => (metrics, .error e)
  | .error e => (metrics, .error e)

/-- The copy whose return value is authoritative for the connection:
the zero-copy result, except that an `InvalidInput` failure defers to the
buffered fallback. -/
def effectiveCopy (zero_copy_result fallback_result : CopyResult) : CopyResult :=
  match zero_copy_result with
  | .ok p => .ok p
  | .error .invalidInput => fallback_result
  | .error e => .error e

/-- Association list standing for the `TCP_CONNECTION_METRICS` `DashMap`. -/
abbrev TcpMetricsMap := List (String × ConnectionMetrics)

/-- Lookup in the metrics map. -/
def lookupId (m : TcpMetricsMap) (k : String) : Option ConnectionMetrics :=
  match m with
  | [] => none
  | (k', v) :: rest => if k' = k then some v else lookupId rest k

/-- Embeds `DashMap::remove` for the metrics map. -/
def removeId (m : TcpMetricsMap) (k : String) : TcpMetricsMap :=
  m.filter (fun kv => decide (kv.1 ≠ k))

/-- Embeds `DashMap::insert` for the metrics map (replaces any previous
entry for the key). -/
def insertId (m : TcpMetricsMap) (k : String) (v : ConnectionMetrics) : TcpMetricsMap :=
  (k, v) :: removeId m k

/-- Trace of the relay phase of `connect_and_relay`
(`realm_core/src/tcp/middle.rs`, lines 92-120): the metrics map as it
stands when the bidirectional copy begins, the map after the handler
returns, and the handler's result. -/
structure TcpRelayTrace where
  map_before_relay : TcpMetricsMap
  map_after : TcpMetricsMap
  result : Except IoErrorKind Unit

/-- Embeds the relay phase of `connect_and_relay`: create fresh
`ConnectionMetrics`, insert it under the freshly minted `conn_id`, run the
relay (which updates the shared metrics in place), then remove the entry
unconditionally. -/
def connect_and_relay_phase (map0 : TcpMetricsMap) (conn_id : String) (now : Nat)
    (zero_copy_result fallback_result : CopyResult) : TcpRelayTrace :=
  let metrics := ConnectionMetrics.new now
  let map1 := insertId map0 conn_id metrics
  let relayed := run_relay metrics zero_copy_result fallback_result
  let map_during := insertId map1 conn_id relayed.1
  { map_before_relay := map1
    map_after := removeId map_during conn_id
    result := relayed.2 }

/-- Outcome of the authentication middleware for one request:
either the request is forwarded to the inner service, or a response is
returned directly with the given `WWW-Authenticate` header and body. -/
inductive AuthOutcome where
  | forwarded
  | unauthorized (www_authenticate : String) (body : String)
deriving DecidableEq

/-- Embeds `WWW_AUTHENTICATE_HEADER` from `realm_core/src/api.rs`. -/
def WWW_AUTHENTICATE_HEADER : String := "Bearer realm=\"Realm API\""

/-- Embeds `AuthMiddleware::call` from `realm_core/src/api.rs`:
if no token is configured the request is forwarded; otherwise the
`Authorization` header must exist, start with `"Bearer "`, and its
remainder must equal the configured token, else a 401 response with the
challenge header and an empty body (`.finish()`) is returned.  Header
values are `List Char`; `auth_header` is the request's `Authorization`
value, if present. -/
def auth_middleware_call (expected_token : Option (List Char))
    (auth_header : Option (List Char)) : AuthOutcome :=
  match expected_token with
  | none => .forwarded
  | some expected =>
      let authorized : Bool :=
        match auth_header with
        | some auth_str =>
            "Bearer ".data.isPrefixOf auth_str && auth_str.drop "Bearer ".data.length == expected
        | none => false
      if authorized then .forwarded
      else .unauthorized WWW_AUTHENTICATE_HEADER ""

/-- Embeds `Strategy` from `realm_lb/src/balancer.rs`. -/
inductive Strategy where
  | off
  | iphash
  | roundrobin
deriving DecidableEq

/-- Embeds `impl From<&str> for Strategy`; the catch-all arm of the Rust
`match` is `panic!("unknown strategy: {}", s)`, modelled as the error case
carrying the panic message. -/
def strategy_from (s : List Char) : Except (List Char) Strategy :=
  if s == "off".data then .ok .off
  else if s == "iphash".data then .ok .iphash
  else if s == "roundrobin".data then .ok .roundrobin
  else .error ("unknown strategy: ".data ++ s)

/-- Outcome of `Balancer::parse_from_str`.  The code can only construct a
balancer or panic; the `invalidConfig` case is the error value the spec
describes and is never produced by the embedded code. -/
inductive ParseOutcome where
  | ok (strategy : Strategy) (weights : List Nat)
  | panicked (msg : List Char)
  | invalidConfig (msg : List Char)
deriving DecidableEq

/-- Tests whether a parse outcome is the spec's `InvalidConfig` error. -/
def ParseOutcome.isInvalidConfig : ParseOutcome → Bool
  | .invalidConfig _ => true
  | _ => false

/-- Embeds Rust `str::trim` on `List Char`. -/
def trimChars (s : List Char) : List Char :=
  ((s.dropWhile Char.isWhitespace).reverse.dropWhile Char.isWhitespace).reverse

/-- Embeds `str::split_once(':')`: scan for the first `':'`, accumulating
the prefix in reverse. -/
def splitOnceAux : List Char → List Char → Option (List Char × List Char)
  | [], _ => none
  | c :: rest, acc => if c == ':' then some (acc.reverse, rest) else splitOnceAux rest (c :: acc)

/-- Embeds `u8::from_str` (as used through `str::parse::<u8>()`): an
optional leading `'+'`, then one or more ASCII digits, value below 256. -/
def parseU8 (s : List Char) : Option Nat :=
  let t := match s with
    | '+' :: r => r
    | _ => s
  if t.isEmpty then none
  else if t.all Char.isDigit then
    let v := t.foldl (fun a c => a * 10 + (c.toNat - 48)) 0
    if v < 256 then some v else none
  else none

/-- Embeds `Balancer::parse_from_str`: `split_once(':').unwrap()` (a
`None` makes the code panic), `Strategy::from(strategy.trim())` (which
panics on an unknown token), then the weights parsed from the
comma-separated tail, silently dropping pieces that fail to parse
(`filter_map(.. parse().ok())`). -/
def parse_from_str (s : List Char) : ParseOutcome :=
  match splitOnceAux s [] with
  | none => .panicked "called Option::unwrap on a None value".data
  | some (strategy, weights) =>
      match strategy_from (trimChars strategy) with
      | .error msg => .panicked msg
      | .ok st =>
          let ws := ((trimChars weights).splitOn ',').map trimChars |>.filterMap parseU8
          .ok st ws

/-- State shared by the UDP forward path and the return-path task:
the outbound socket map (keyed by client address, here a `Nat`) and the
`UDP_ASSOCIATION_METRICS` map. -/
structure UdpState where
  sockmap : List Nat
  metrics : List (Nat × ConnectionMetrics)
deriving DecidableEq

/-- Lookup in the UDP metrics map. -/
def lookupUdp (m : List (Nat × ConnectionMetrics)) (k : Nat) : Option ConnectionMetrics :=
  match m with
  | [] => none
  | (k', v) :: rest => if k' = k then some v else lookupUdp rest k

/-- One iteration's worth of environment input for `send_back`'s loop:
the bounded batched receive timed out, or failed, or delivered packets of
the given payload lengths, after which the batched send back to the client
either succeeded or failed. -/
inductive SendBackEvent where
  | timeout
  | recvFailed
  | received (payload_lens : List Nat) (send_ok : Bool)

/-- Updates the association's metrics entry with received bytes
(`update_rx` on the shared metrics of this client address). -/
def updateRxAt (st : UdpState) (laddr : Nat) (bytes : Nat) : UdpState :=
  { st with metrics := st.metrics.map (fun kv => if kv.1 = laddr then (kv.1, kv.2.update_rx bytes) else kv) }

/-- Embeds the cleanup after `send_back`'s loop
(`realm_core/src/udp/middle.rs`, lines 209-210): `sockmap.remove(&laddr)`
and `UDP_ASSOCIATION_METRICS.remove(&laddr)`. -/
def sendBackCleanup (laddr : Nat) (st : UdpState) : UdpState :=
  { sockmap := st.sockmap.filter (fun a => decide (a ≠ laddr))
    metrics := st.metrics.filter (fun kv => decide (kv.1 ≠ laddr)) }

/-- Embeds the loop of `send_back`: each event is one iteration.
Timeout and receive failure break; a received batch is sent back to the
client, a send failure breaks before any accounting, a successful send
adds the payload total to `rx_bytes` and loops.  The result is the state
at loop exit, or `none` if the given events never terminate the loop. -/
def sendBackLoop (laddr : Nat) (events : List SendBackEvent) (st : UdpState) : Option UdpState :=
  match events with
  | [] => none
  | ev :: rest =>
      match ev with
      | .timeout => some st
      | .recvFailed => some st
      | .received lens send_ok =>
          if send_ok then sendBackLoop laddr rest (updateRxAt st laddr lens.sum)
          else some st

/-- Embeds `send_back` (`realm_core/src/udp/middle.rs`, lines 167-212):
run the loop, then perform the cleanup. -/
def send_back (laddr : Nat) (events : List SendBackEvent) (st : UdpState) : Option UdpState :=
  (sendBackLoop laddr events st).map (sendBackCleanup laddr)

/-- State of the control plane's rule registry: the `ENDPOINT_SENDER` map
(rule id to the tag of the thread that inserted its sender) together with
the tags of the worker tasks spawned so far. -/
structure ApiState where
  registry : List (String × Nat)
  workers : List Nat
deriving DecidableEq

/-- Embeds `DashMap::contains_key` on the rule registry. -/
def containsId (registry : List (String × Nat)) (k : String) : Bool :=
  registry.any (fun kv => kv.1 == k)

/-- Embeds `DashMap::insert` on the rule registry (replacing any previous
sender for the id). -/
def insertSender (registry : List (String × Nat)) (k : String) (tag : Nat) : List (String × Nat) :=
  (k, tag) :: registry.filter (fun kv => decide (kv.1 ≠ k))

/-- Embeds `DashMap::remove` on the rule registry. -/
def removeSender (registry : List (String × Nat)) (k : String) : List (String × Nat) :=
  registry.filter (fun kv => decide (kv.1 ≠ k))

/-- Embeds the `add_rule` handler (`realm_core/src/api.rs`, lines 141-194)
for one request executed without interleaving: build the endpoint from the
body first (400 on failure, before any duplicate check), then check for a
duplicate id (409), then insert the sender, spawn the worker task, and
send the endpoint through the channel — 500 with the sender removed if the
send fails, 201 otherwise.  `tag` identifies this request's channel and
worker. -/
def add_rule (st : ApiState) (endpoint_id : String) (tag : Nat)
    (build_result : Except String Unit) (send_ok : Bool) : ApiState × Nat :=
  match build_result with
  | .error _ => (st, 400)
  | .ok _ =>
      if containsId st.registry endpoint_id then (st, 409)
      else
        let st1 : ApiState :=
          { registry := insertSender st.registry endpoint_id tag
            workers := st.workers ++ [tag] }
        if send_ok then (st1, 201)
        else ({ st1 with registry := removeSender st1.registry endpoint_id }, 500)

/-- Program counter of one in-flight `add_rule` request, decomposed at its
`await`/map-operation boundaries: `0` = about to run the duplicate check,
`1` = about to insert the sender, `2` = about to spawn the worker task,
`3` = about to send through the channel and respond, `4` = finished. -/
structure ReqThread where
  pc : Nat
  response : Option Nat
deriving DecidableEq

/-- One atomic step of an `add_rule` request on the shared registry (the
build has already succeeded).  Each `DashMap` operation is atomic, but the
sequence `contains_key`-then-`insert` is not. -/
def addRuleStep (endpoint_id : String) (tag : Nat) (st : ApiState) (th : ReqThread) :
    ApiState × ReqThread :=
  match th.pc with
  | 0 =>
      if containsId st.registry endpoint_id then (st, { pc := 4, response := some 409 })
      else (st, { pc := 1, response := none })
  | 1 => ({ st with registry := insertSender st.registry endpoint_id tag }, { pc := 2, response := none })
  | 2 => ({ st with workers := st.workers ++ [tag] }, { pc := 3, response := none })
  | 3 => (st, { pc := 4, response := some 201 })
  | _ => (st, th)

/-- Runs two concurrent `add_rule` requests for the same rule id under a
schedule: `false` steps request 1 (tag 1), `true` steps request 2 (tag 2). -/
def runTwoRequests (endpoint_id : String) (sched : List Bool) (st : ApiState)
    (t1 t2 : ReqThread) : ApiState × ReqThread × ReqThread :=
  match sched with
  | [] => (st, t1, t2)
  | b :: rest =>
      if b then
        let (st', t2') := addRuleStep endpoint_id 2 st t2
        runTwoRequests endpoint_id rest st' t1 t2'
      else
        let (st', t1') := addRuleStep endpoint_id 1 st t1
        runTwoRequests endpoint_id rest st' t1' t2

/-- Swaps the elements at positions `i` and `j` of a list, embedding
`<[T]>::swap` (in-bounds by the call sites' loop invariants; out of
bounds, the model returns the list unchanged). -/
def swapIdx (l : List α) (i j : Nat) : List α :=
  match l[i]?, l[j]? with
  | some a, some b => (l.set i b).set j a
  | _, _ => l

/-- Embeds the inner `probe` loop of `group_by_inner`
(`realm_core/src/udp/middle.rs`, lines 95-102): scan positions
`probe, probe+1, ..` up to `maxn`; every element equal (under `eq`) to the
group head `data[beg]` is swapped down to position `e`, extending the
current group.  Returns the updated data and the final `e`. -/
def probeLoop (eq : α → α → Bool) [Inhabited α] (maxn beg : Nat) (data : List α)
    (e probe : Nat) : List α × Nat :=
  if probe < maxn then
    if eq (data.getD probe default) (data.getD beg default) then
      probeLoop eq maxn beg (swapIdx data probe e) (e + 1) (probe + 1)
    else
      probeLoop eq maxn beg data e (probe + 1)
  else
    (data, e)
termination_by maxn - probe

/-- Embeds the outer `while end < maxn` loop of `group_by_inner`
(lines 87-105), with `e` playing the role of the Rust `end` variable.
The recursive call clamps the probe loop's returned `e` with
`max · e` purely so that termination is structural in `maxn - e`; the
probe loop never decreases `e` (`probeLoop_e_le` below), so the clamp is
the identity on every reachable state. -/
def groupLoop (eq : α → α → Bool) [Inhabited α] (maxn : Nat) (data : List α)
    (groups : List (Nat × Nat)) (beg e : Nat) : List α × List (Nat × Nat) :=
  if h : e < maxn then
    if eq (data.getD e default) (data.getD beg default) then
      groupLoop eq maxn data groups beg (e + 1)
    else
      let p := probeLoop eq maxn beg data e (e + 1)
      let e2 := max p.2 e
      groupLoop eq maxn p.1 (groups ++ [(beg, e2)]) e2 (e2 + 1)
  else
    (data, groups ++ [(beg, e)])
termination_by maxn - e
decreasing_by
· omega
· have := Nat.le_max_right p.2 e
  omega

/-- Embeds `group_by_inner` (lines 82-107): `maxn = data.len()`,
`(beg, end) = (0, 1)`, run the loop, with the final `groups.push(beg..end)`
folded into `groupLoop`'s exit case.  Returns the permuted data together
with the pushed ranges. -/
def group_by_inner (eq : α → α → Bool) [Inhabited α] (data : List α) :
    List α × List (Nat × Nat) :=
  groupLoop eq data.length data [] 0 1

/-- A received datagram, reduced to what the grouping inspects: its source
address and an identifier standing for its payload (used to track arrival
order). -/
structure Packet where
  addr : Nat
  body : Nat
deriving DecidableEq

instance : Inhabited Packet := ⟨⟨0, 0⟩⟩

/-- The closure `|a, b| a.addr == b.addr` passed by
`Registry::group_by_addr`. -/
def pktAddrEq (a b : Packet) : Bool := a.addr == b.addr

/-- Embeds `Registry::group_by_addr` (lines 43-47) applied to the received
batch `pkts[..n]`. -/
def group_by_addr (pkts : List Packet) : List Packet × List (Nat × Nat) :=
  group_by_inner pktAddrEq pkts

/-- Checks that ranges are consecutive, nonempty, and cover exactly
`[start, stop)`. -/
def rangesChain (start : Nat) (groups : List (Nat × Nat)) (stop : Nat) : Bool :=
  match groups with
  | [] => start == stop
  | (b, e) :: rest => b == start && b < e && rangesChain e rest stop

/-- The source addresses of a batch, in order. -/
def addrsOf (l : List Packet) : List Nat := l.map Packet.addr

/-- First-occurrence deduplication helper (`seen` accumulates the
addresses already emitted). -/
def firstOccurAux : List Nat → List Nat → List Nat
  | [], _ => []
  | a :: rest, seen =>
      if seen.contains a then firstOccurAux rest seen
      else a :: firstOccurAux rest (a :: seen)

/-- The distinct addresses of a batch in first-occurrence (insertion)
order — the order in which the spec claims the groups appear. -/
def firstOccur (l : List Nat) : List Nat := firstOccurAux l []

/-- The concrete received batch `[a, b, c, a, b, c]` (addresses 0, 1, 2,
bodies numbering arrival order) used to refute the ordering clauses of the
grouping claim. -/
def c4Batch : List Packet :=
  [⟨0, 0⟩, ⟨1, 1⟩, ⟨2, 2⟩, ⟨0, 3⟩, ⟨1, 4⟩, ⟨2, 5⟩]

/-! Helper lemmas on the metrics maps. -/

theorem lookupId_insertId_self (m : TcpMetricsMap) (k : String) (v : ConnectionMetrics) :
    lookupId (insertId m k v) k = some v := by
  simp [insertId, lookupId]

theorem lookupId_removeId_self (m : TcpMetricsMap) (k : String) :
    lookupId (removeId m k) k = none := by
  induction m with
  | nil => rfl
  | cons kv rest ih =>
      by_cases hk : kv.1 = k
      · simpa [removeId, List.filter, hk] using ih
      · simpa [removeId, lookupId, hk] using ih

theorem removeId_insertId (m : TcpMetricsMap) (k : String) (v : ConnectionMetrics) :
    removeId (insertId m k v) k = removeId m k := by
  simp [insertId, removeId, List.filter_filter]

theorem removeId_eq_of_lookup_none (m : TcpMetricsMap) (k : String)
    (h : lookupId m k = none) : removeId m k = m := by
  induction m with
  | nil => rfl
  | cons kv rest ih =>
      by_cases hk : kv.1 = k
      · simp [lookupId, hk] at h
      · simp only [lookupId, hk, if_neg] at h
        simp [removeId, List.filter, hk] at ih ⊢
        exact ih h

/-- C1: for every TCP relayed connection, the final counters are assigned
exactly once at termination from the authoritative return value of the
copy: if the effective copy (zero-copy, or the buffered fallback after an
`InvalidInput` failure) returns `Ok (a_to_b, b_to_a)`, then the metrics
that started at zero end with `tx_bytes = a_to_b` and
`rx_bytes = b_to_a` — in particular the fallback path counts nothing
twice. -/
theorem c1_tcp_accounting_once (zc fb : CopyResult) (a b t0 : Nat)
    (hok : effectiveCopy zc fb = .ok (a, b)) (ha : a < u64Mod) (hb : b < u64Mod) :
    (run_relay (ConnectionMetrics.new t0) zc fb).1.traffic = ⟨a, b⟩ ∧
    (run_relay (ConnectionMetrics.new t0) zc fb).2 = .ok () := by
  have step : (((ConnectionMetrics.new t0).update_tx a).update_rx b).traffic = ⟨a, b⟩ := by
    simp [ConnectionMetrics.new, ConnectionMetrics.update_tx, ConnectionMetrics.update_rx,
      Nat.mod_eq_of_lt ha, Nat.mod_eq_of_lt hb]
  cases zc with
  | ok p =>
      obtain ⟨a', b'⟩ := p
      simp only [effectiveCopy, Except.ok.injEq, Prod.mk.injEq] at hok
      obtain ⟨rfl, rfl⟩ := hok
      exact ⟨step, rfl⟩
  | error e =>
      cases e with
      | invalidInput =>
          simp only [effectiveCopy] at hok
          cases fb with
          | ok p =>
              obtain ⟨a', b'⟩ := p
              simp only [Except.ok.injEq, Prod.mk.injEq] at hok
              obtain ⟨rfl, rfl⟩ := hok
              exact ⟨step, rfl⟩
          | error e' => simp at hok
      | otherErr => simp [effectiveCopy] at hok

/-- Witness for `c1_tcp_accounting_once`: the fallback path after an
`InvalidInput` zero-copy failure, with 5 bytes out and 7 bytes back. -/
theorem c1_tcp_accounting_once_witness :
    effectiveCopy (.error .invalidInput) (.ok (5, 7)) = .ok (5, 7) ∧ 5 < u64Mod ∧ 7 < u64Mod ∧
    (run_relay (ConnectionMetrics.new 0) (.error .invalidInput) (.ok (5, 7))).1.traffic = ⟨5, 7⟩ ∧
    (run_relay (ConnectionMetrics.new 0) (.error .invalidInput) (.ok (5, 7))).2 = .ok () :=
  ⟨rfl, by decide, by decide,
    c1_tcp_accounting_once (.error .invalidInput) (.ok (5, 7)) 5 7 0 rfl (by decide)
      (by decide)⟩

/-- An `Authorization` value authorizes exactly the string
`"Bearer " ++ token`. -/
theorem bearer_check_iff (s T : List Char) :
    ("Bearer ".data.isPrefixOf s && (s.drop "Bearer ".data.length == T)) = true ↔
      s = "Bearer ".data ++ T := by
  constructor
  · intro hb
    obtain ⟨hpre, hdrop⟩ := Bool.and_eq_true_iff.mp hb
    rw [ List.isPrefixOf_iff_prefix] at hpre
    obtain ⟨t, rfl⟩ := hpre
    rw [List.drop_left] at hdrop
    rw [eq_of_beq hdrop]
  · rintro rfl
    rw [Bool.and_eq_true_iff]
    refine ⟨ List.isPrefixOf_iff_prefix.mpr ⟨T, rfl⟩, ?_⟩
    rw [List.drop_left]
    exact beq_self_eq_true T

/-- C2: with no configured token every request is forwarded; with a
configured token `T` a request is forwarded exactly when its
`Authorization` header is present with value `"Bearer " ++ T`, and every
other request gets the 401 response with the
`WWW-Authenticate: Bearer realm="Realm API"` header and an empty body. -/
theorem c2_auth_middleware (T : List Char) (h : Option (List Char))
    (hne : h ≠ some ("Bearer ".data ++ T)) :
    (∀ h', auth_middleware_call none h' = .forwarded) ∧
    (∀ h'', (auth_middleware_call (some T) h'' = .forwarded ↔
        h'' = some ("Bearer ".data ++ T))) ∧
    auth_middleware_call (some T) h = .unauthorized WWW_AUTHENTICATE_HEADER "" := by
  have key : ∀ h'', (auth_middleware_call (some T) h'' = .forwarded ↔
      h'' = some ("Bearer ".data ++ T)) := by
    intro h''
    cases h'' with
    | none => simp [auth_middleware_call]
    | some s =>
        simp only [auth_middleware_call, Option.some.injEq]
        rw [← bearer_check_iff s T]
        by_cases hc : ("Bearer ".data.isPrefixOf s && (s.drop "Bearer ".data.length == T)) = true
        · rw [if_pos hc]
          exact iff_of_true rfl hc
        · rw [if_neg hc]
          exact iff_of_false (by simp) hc
  refine ⟨fun h' => rfl, key, ?_⟩
  have hcases : auth_middleware_call (some T) h = .forwarded ∨
      auth_middleware_call (some T) h = .unauthorized WWW_AUTHENTICATE_HEADER "" := by
    cases h with
    | none => exact Or.inr rfl
    | some s =>
        simp only [auth_middleware_call]
        by_cases hc : ("Bearer ".data.isPrefixOf s && (s.drop "Bearer ".data.length == T)) = true
        · exact Or.inl (by rw [if_pos hc])
        · exact Or.inr (by rw [if_neg hc])
  rcases hcases with hf | hu
  · exact absurd ((key h).mp hf) hne
  · exact hu

/-- Witness for `c2_auth_middleware`: token `secret`, request without an
`Authorization` header. -/
theorem c2_auth_middleware_witness :
    (none : Option (List Char)) ≠ some ("Bearer ".data ++ "secret".data) ∧
    auth_middleware_call (some "secret".data) none =
      .unauthorized WWW_AUTHENTICATE_HEADER "" :=
  ⟨by simp, (c2_auth_middleware "secret".data none (by simp)).2.2⟩

/-- Scanning `a ++ ':' :: b` finds the first colon after `a` when `a`
itself contains none. -/
theorem splitOnceAux_append (a b acc : List Char) (h : ¬ ':' ∈ a) :
    splitOnceAux (a ++ ':' :: b) acc = some (acc.reverse ++ a, b) := by
  induction a generalizing acc with
  | nil => simp [splitOnceAux]
  | cons c r ih =>
      have hc : c ≠ ':' := fun hh => h (hh ▸ List.mem_cons_self c r)
      have hr : ¬ ':' ∈ r := fun hh => h (List.mem_cons_of_mem c hh)
      have hbeq : (c == ':') = false := beq_eq_false_iff_ne.mpr hc
      simp [splitOnceAux, hbeq, ih (c :: acc) hr]

/-- Counterexample to C3: parsing `"bogus: 1"` panics with
`unknown strategy: bogus`; it does not produce the `InvalidConfig` error
value the claim describes. -/
theorem c3_counterexample_unknown_strategy_panics :
    parse_from_str "bogus: 1".data = .panicked ("unknown strategy: bogus".data) ∧
    (parse_from_str "bogus: 1".data).isInvalidConfig = false := by
  constructor
  · decide
  · decide

/-- C3 (amended): for every configuration string
`<strategy>: w1, w2, ...` whose (trimmed) strategy token is not `off`,
`iphash` or `roundrobin`, `Balancer::parse_from_str` panics with
`unknown strategy: <token>` — the process aborts instead of an
`InvalidConfig` error value being returned. -/
theorem c3_unknown_strategy_panics (strat w : List Char)
    (hnc : ¬ ':' ∈ strat)
    (h1 : trimChars strat ≠ "off".data)
    (h2 : trimChars strat ≠ "iphash".data)
    (h3 : trimChars strat ≠ "roundrobin".data) :
    parse_from_str (strat ++ ':' :: w) =
      .panicked ("unknown strategy: ".data ++ trimChars strat) := by
  have hsplit := splitOnceAux_append strat w [] hnc
  have hb1 : (trimChars strat == "off".data) = false := beq_eq_false_iff_ne.mpr h1
  have hb2 : (trimChars strat == "iphash".data) = false := beq_eq_false_iff_ne.mpr h2
  have hb3 : (trimChars strat == "roundrobin".data) = false := beq_eq_false_iff_ne.mpr h3
  simp only [parse_from_str, hsplit, List.reverse_nil, List.nil_append]
  simp [strategy_from, hb1, hb2, hb3]

/-- Witness for `c3_unknown_strategy_panics`: the string `"bogus: 1"`. -/
theorem c3_unknown_strategy_panics_witness :
    (¬ ':' ∈ "bogus".data) ∧
    parse_from_str ("bogus".data ++ ':' :: " 1".data) =
      .panicked ("unknown strategy: ".data ++ trimChars "bogus".data) :=
  ⟨by decide,
    c3_unknown_strategy_panics "bogus".data " 1".data (by decide) (by decide) (by decide)
      (by decide)⟩

/-- C5: one `calculate_speed` step leaves the metrics unchanged when the
elapsed time `now − last_speed_update_time` (saturating) is below one
microsecond (1000 ns), and otherwise sets the two speeds to
`Δbytes · 8 / Δt_seconds` (with saturating byte deltas) and writes back
`last_tx_bytes`, `last_rx_bytes` and `last_speed_update_time`. -/
theorem c5_calculate_speed_step (m : ConnectionMetrics) (now : Nat) :
    m.calculate_speed now =
      if now - m.last_speed_update_time < 1000 then m
      else
        { m with
          upload_speed_bps := ((m.traffic.tx_bytes - m.last_tx_bytes : Nat) : ℚ) * 8 /
            (((now - m.last_speed_update_time : Nat) : ℚ) / 10 ^ 9)
          download_speed_bps := ((m.traffic.rx_bytes - m.last_rx_bytes : Nat) : ℚ) * 8 /
            (((now - m.last_speed_update_time : Nat) : ℚ) / 10 ^ 9)
          last_tx_bytes := m.traffic.tx_bytes
          last_rx_bytes := m.traffic.rx_bytes
          last_speed_update_time := now } := by
  have guard : ∀ d : Nat, ((d : ℚ) / 10 ^ 9 < 1 / 10 ^ 6) ↔ d < 1000 := by
    intro d
    rw [div_lt_div_iff₀ (by norm_num) (by norm_num)]
    constructor
    · intro hlt
      have h2 : (d : ℚ) < 1000 := by nlinarith
      exact_mod_cast h2
    · intro hlt
      have h2 : (d : ℚ) < 1000 := by exact_mod_cast hlt
      nlinarith
  unfold ConnectionMetrics.calculate_speed
  by_cases hd : now - m.last_speed_update_time < 1000
  · rw [if_pos ((guard _).mpr hd), if_pos hd]
  · rw [if_neg (fun hq => hd ((guard _).mp hq)), if_neg hd]

/-- Counterexample to C6: `u64` counters wrap on overflow in release
builds, so `update_tx` with arguments `2^64 − 1` and then `2` makes
`tx_bytes` decrease from `2^64 − 1` to `1`. -/
theorem c6_counterexample_overflow :
    (((ConnectionMetrics.new 0).update_tx (2 ^ 64 - 1)).update_tx 2).traffic.tx_bytes <
      ((ConnectionMetrics.new 0).update_tx (2 ^ 64 - 1)).traffic.tx_bytes := by
  decide

/-- C6 (amended): as long as no single `u64` addition overflows (the sum
stays below `2^64`), `update_tx` and `update_rx` never decrease either
counter (each updates only its own counter), and `calculate_speed` never
modifies the counters at all. -/
theorem c6_counters_monotone_without_overflow :
    (∀ (m : ConnectionMetrics) (b : Nat), m.traffic.tx_bytes + b < u64Mod →
        m.traffic.tx_bytes ≤ (m.update_tx b).traffic.tx_bytes ∧
        (m.update_tx b).traffic.rx_bytes = m.traffic.rx_bytes) ∧
    (∀ (m : ConnectionMetrics) (b : Nat), m.traffic.rx_bytes + b < u64Mod →
        m.traffic.rx_bytes ≤ (m.update_rx b).traffic.rx_bytes ∧
        (m.update_rx b).traffic.tx_bytes = m.traffic.tx_bytes) ∧
    (∀ (m : ConnectionMetrics) (now : Nat), (m.calculate_speed now).traffic = m.traffic) := by
  refine ⟨fun m b hb => ?_, fun m b hb => ?_, fun m now => ?_⟩
  · unfold ConnectionMetrics.update_tx
    rw [Nat.mod_eq_of_lt hb]
    exact ⟨Nat.le_add_right _ _, rfl⟩
  · unfold ConnectionMetrics.update_rx
    rw [Nat.mod_eq_of_lt hb]
    exact ⟨Nat.le_add_right _ _, rfl⟩
  · unfold ConnectionMetrics.calculate_speed
    by_cases hq : ((now - m.last_speed_update_time : Nat) : ℚ) / 10 ^ 9 < 1 / 10 ^ 6
    · rw [if_pos hq]
    · rw [if_neg hq]

/-- Witness for `c6_counters_monotone_without_overflow`: a 5-byte
`update_tx` on fresh metrics. -/
theorem c6_counters_monotone_witness :
    (ConnectionMetrics.new 0).traffic.tx_bytes + 5 < u64Mod ∧
    (ConnectionMetrics.new 0).traffic.tx_bytes ≤
      ((ConnectionMetrics.new 0).update_tx 5).traffic.tx_bytes :=
  ⟨by decide, (c6_counters_monotone_without_overflow.1 (ConnectionMetrics.new 0) 5 (by decide)).1⟩

/-- Lookup after filtering out a key finds nothing. -/
theorem lookupUdp_filter_ne (l : List (Nat × ConnectionMetrics)) (k : Nat) :
    lookupUdp (l.filter (fun kv => decide (kv.1 ≠ k))) k = none := by
  induction l with
  | nil => rfl
  | cons kv rest ih =>
      by_cases hk : kv.1 = k
      · simpa [List.filter, hk] using ih
      · simpa [List.filter, lookupUdp, hk] using ih

/-- C7: whenever the `send_back` task terminates — idle timeout, receive
failure, or a fatal send failure — the association is removed from the
outbound socket map and its `ConnectionMetrics` entry is removed from the
UDP metrics map. -/
theorem c7_send_back_cleanup (laddr : Nat) (events : List SendBackEvent) (st st' : UdpState)
    (hterm : send_back laddr events st = some st') :
    ¬ laddr ∈ st'.sockmap ∧ lookupUdp st'.metrics laddr = none := by
  have hsh : ∀ stx : UdpState, st' = sendBackCleanup laddr stx →
      ¬ laddr ∈ st'.sockmap ∧ lookupUdp st'.metrics laddr = none := by
    rintro stx rfl
    constructor
    · intro hmem
      have := (List.mem_filter.mp hmem).2
      simp at this
    · exact lookupUdp_filter_ne stx.metrics laddr
  unfold send_back at hterm
  cases hloop : sendBackLoop laddr events st with
  | none => rw [hloop] at hterm; simp at hterm
  | some stx =>
      rw [hloop] at hterm
      simp only [Option.map_some'] at hterm
      exact hsh stx (Option.some.injEq .. ▸ hterm).symm

/-- Witness for `c7_send_back_cleanup`: a single idle-timeout event on an
association for client address 7. -/
theorem c7_send_back_cleanup_witness :
    send_back 7 [SendBackEvent.timeout] ⟨[7], [(7, ConnectionMetrics.new 0)]⟩ =
      some ⟨[], []⟩ ∧
    ¬ 7 ∈ (⟨[], []⟩ : UdpState).sockmap ∧
    lookupUdp (⟨[], []⟩ : UdpState).metrics 7 = none :=
  ⟨by decide, c7_send_back_cleanup 7 [SendBackEvent.timeout]
      ⟨[7], [(7, ConnectionMetrics.new 0)]⟩ ⟨[], []⟩ (by decide)⟩

/-- C8: the relay phase of `connect_and_relay` inserts a fresh
zero-counter `ConnectionMetrics` entry under the newly minted
connection id before the bidirectional copy begins, and removes the entry
when the copy returns — on the success and on the error path alike (the
final map no longer contains the id, and for a fresh id the map returns
to exactly its previous value). -/
theorem c8_tcp_metrics_lifecycle (map0 : TcpMetricsMap) (conn_id : String) (now : Nat)
    (zc fb : CopyResult) (hfresh : lookupId map0 conn_id = none) :
    lookupId (connect_and_relay_phase map0 conn_id now zc fb).map_before_relay conn_id =
      some (ConnectionMetrics.new now) ∧
    (ConnectionMetrics.new now).traffic = ⟨0, 0⟩ ∧
    lookupId (connect_and_relay_phase map0 conn_id now zc fb).map_after conn_id = none ∧
    (connect_and_relay_phase map0 conn_id now zc fb).map_after = map0 := by
  refine ⟨?_, rfl, ?_, ?_⟩
  · exact lookupId_insertId_self _ _ _
  · exact lookupId_removeId_self _ _
  · show removeId (insertId (insertId map0 conn_id _) conn_id _) conn_id = map0
    rw [removeId_insertId, show removeId (insertId map0 conn_id _) conn_id = removeId map0 conn_id
      from removeId_insertId _ _ _]
    exact removeId_eq_of_lookup_none map0 conn_id hfresh

/-- Witness for `c8_tcp_metrics_lifecycle`: an empty map, id `"c1"`, and a
relay that fails. -/
theorem c8_tcp_metrics_lifecycle_witness :
    lookupId [] "c1" = none ∧
    lookupId (connect_and_relay_phase [] "c1" 0 (.error .otherErr) (.ok (0, 0))).map_after "c1" =
      none :=
  ⟨rfl, (c8_tcp_metrics_lifecycle [] "c1" 0 (.error .otherErr) (.ok (0, 0)) rfl).2.2.1⟩

/-- C9 is violated by the code: `add_rule` checks `contains_key` and then
`insert`s in two separate atomic steps, so the schedule in which both
requests pass the duplicate check before either inserts gives **both**
requests a 201, spawns two worker tasks, and lets the second sender
overwrite the first — the spec's "exactly one 201 and one 409" does not
hold.  The schedule below runs: check₁, check₂, then the remainder of
request 1, then the remainder of request 2. -/
theorem c9_race_both_created :
    (runTwoRequests "r1" [false, true, false, false, false, true, true, true]
        ⟨[], []⟩ ⟨0, none⟩ ⟨0, none⟩).2.1.response = some 201 ∧
    (runTwoRequests "r1" [false, true, false, false, false, true, true, true]
        ⟨[], []⟩ ⟨0, none⟩ ⟨0, none⟩).2.2.response = some 201 ∧
    (runTwoRequests "r1" [false, true, false, false, false, true, true, true]
        ⟨[], []⟩ ⟨0, none⟩ ⟨0, none⟩).1.workers = [1, 2] ∧
    (runTwoRequests "r1" [false, true, false, false, false, true, true, true]
        ⟨[], []⟩ ⟨0, none⟩ ⟨0, none⟩).1.registry = [("r1", 2)] := by
  refine ⟨?_, ?_, ?_, ?_⟩ <;> rfl

/-- C10: when the endpoint fails to build, `add_rule` answers 400 and
leaves the state untouched — the build runs before the duplicate-id check,
so this holds even when a rule with the same id already exists (400 takes
precedence over 409), no worker is spawned, and the registry is
unchanged. -/
theorem c10_build_failure_yields_400 (st : ApiState) (endpoint_id : String) (tag : Nat)
    (msg : String) (send_ok : Bool) :
    add_rule st endpoint_id tag (.error msg) send_ok = (st, 400) := rfl

/-- Replacing the element found at position `k` and moving it to the head
is a permutation. -/
theorem cons_set_perm (t : List α) (k : Nat) (v w : α) (h : t[k]? = some v) :
    (v :: t.set k w).Perm (w :: t) := by
  induction t generalizing k with
  | nil => simp at h
  | cons c t' ih =>
      cases k with
      | zero =>
          simp only [List.getElem?_cons_zero, Option.some.injEq] at h
          rw [← h]
          exact List.Perm.swap w c t'
      | succ k' =>
          simp only [List.getElem?_cons_succ] at h
          show (v :: c :: t'.set k' w).Perm (w :: c :: t')
          have h1 : (v :: c :: t'.set k' w).Perm (c :: v :: t'.set k' w) := List.Perm.swap c v _
          have h2 : (c :: v :: t'.set k' w).Perm (c :: w :: t') := (ih k' h).cons c
          have h3 : (c :: w :: t').Perm (w :: c :: t') := List.Perm.swap w c t'
          exact h1.trans (h2.trans h3)

/-- Exchanging the elements at two positions is a permutation. -/
theorem set_set_swap_perm (t : List α) (i j : Nat) (a b : α)
    (hi : t[i]? = some a) (hj : t[j]? = some b) :
    ((t.set i b).set j a).Perm t := by
  induction t generalizing i j with
  | nil => simp at hi
  | cons c t' ih =>
      cases i with
      | zero =>
          simp only [List.getElem?_cons_zero, Option.some.injEq] at hi
          cases j with
          | zero =>
              simp only [List.getElem?_cons_zero, Option.some.injEq] at hj
              rw [← hi, ← hj]
              simp
          | succ j' =>
              simp only [List.getElem?_cons_succ] at hj
              rw [← hi]
              exact cons_set_perm t' j' b c hj
      | succ i' =>
          simp only [List.getElem?_cons_succ] at hi
          cases j with
          | zero =>
              simp only [List.getElem?_cons_zero, Option.some.injEq] at hj
              rw [← hj]
              exact cons_set_perm t' i' a c hi
          | succ j' =>
              simp only [List.getElem?_cons_succ] at hj
              show (c :: (t'.set i' b).set j' a).Perm (c :: t')
              exact (ih i' j' hi hj).cons c

/-- A swap is a permutation. -/
theorem swapIdx_perm (l : List α) (i j : Nat) : (swapIdx l i j).Perm l := by
  cases hi : l[i]? with
  | none => simp [swapIdx, hi]
  | some a =>
      cases hj : l[j]? with
      | none => simp [swapIdx, hi, hj]
      | some b =>
          simpa [swapIdx, hi, hj] using set_set_swap_perm l i j a b hi hj

/-- A swap preserves length. -/
theorem length_swapIdx (l : List α) (i j : Nat) : (swapIdx l i j).length = l.length :=
  (swapIdx_perm l i j).length_eq

/-- Pointwise description of a swap at in-bounds positions. -/
theorem getD_swapIdx (l : List α) (i j k : Nat) (hi : i < l.length) (hj : j < l.length) (d : α) :
    (swapIdx l i j).getD k d =
      if k = j then l.getD i d else if k = i then l.getD j d else l.getD k d := by
  have hi' := List.getElem?_eq_getElem hi
  have hj' := List.getElem?_eq_getElem hj
  simp only [swapIdx, hi', hj', List.getD_eq_getElem?_getD, List.getElem?_set, List.length_set]
  split_ifs <;> first | rfl | omega

/-- A swap at positions at or beyond `c` leaves the first `c` elements
unchanged. -/
theorem swapIdx_take_eq (l : List α) (i j c : Nat) (hci : c ≤ i) (hcj : c ≤ j) :
    (swapIdx l i j).take c = l.take c := by
  cases hi : l[i]? with
  | none => simp [swapIdx, hi]
  | some a =>
      cases hj : l[j]? with
      | none => simp [swapIdx, hi, hj]
      | some b =>
          simp only [swapIdx, hi, hj]
          have h1 : (l.take c).length ≤ i := le_trans (List.length_take_le ..) hci
          have h2 : ((l.take c).set i b).length ≤ j := by
            rw [List.length_set]
            exact le_trans (List.length_take_le ..) hcj
          rw [List.set_take, List.set_take, List.set_eq_of_length_le h2,
            List.set_eq_of_length_le h1]

/-- A swap at positions at or beyond `c` permutes the tail from `c` on. -/
theorem swapIdx_drop_perm (l : List α) (i j c : Nat) (hci : c ≤ i) (hcj : c ≤ j)
    (hi : i < l.length) (hj : j < l.length) :
    ((swapIdx l i j).drop c).Perm (l.drop c) := by
  have hi' := List.getElem?_eq_getElem hi
  have hj' := List.getElem?_eq_getElem hj
  simp only [swapIdx, hi', hj']
  rw [List.drop_set, if_neg (by omega), List.drop_set, if_neg (by omega)]
  refine set_set_swap_perm (l.drop c) (i - c) (j - c) _ _ ?_ ?_
  · rw [List.getElem?_drop, show c + (i - c) = i by omega]
    exact hi'
  · rw [List.getElem?_drop, show c + (j - c) = j by omega]
    exact hj'

/-- Positions below `c` read equal values in lists with equal `c`-prefixes. -/
theorem getD_eq_of_take_eq {l₁ l₂ : List α} {c i : Nat} (h : l₁.take c = l₂.take c)
    (hi : i < c) (d : α) : l₁.getD i d = l₂.getD i d := by
  rw [List.getD_eq_getElem?_getD, List.getD_eq_getElem?_getD,
    ← @List.getElem?_take_of_lt _ l₁ c i hi, h, @List.getElem?_take_of_lt _ l₂ c i hi]

/-- Every element of `l.drop c` is read by `getD` at some position in
`[c, l.length)`. -/
theorem forall_mem_drop_of_forall_getD {l : List α} {c : Nat} {P : α → Prop} (d : α)
    (h : ∀ i, c ≤ i → i < l.length → P (l.getD i d)) : ∀ x ∈ l.drop c, P x := by
  intro x hx
  obtain ⟨k, hk, hkx⟩ := List.mem_iff_getElem.mp hx
  have hk' : (l.drop c)[k]? = some x := by
    rw [List.getElem?_eq_getElem hk, hkx]
  rw [List.getElem?_drop] at hk'
  have hlen : c + k < l.length := by
    have := List.length_drop c l ▸ hk
    omega
  have : l.getD (c + k) d = x := by
    rw [List.getD_eq_getElem?_getD, hk']
    rfl
  exact this ▸ h (c + k) (Nat.le_add_right c k) hlen

/-- Lists that agree up to position `m` and whose tails from `m` are
permutations are permutations from any earlier cut as well. -/
theorem drop_perm_of_take_eq {l₁ l₂ : List α} {c m : Nat} (hcm : c ≤ m) (hm : m ≤ l₁.length)
    (hlen : l₁.length = l₂.length) (ht : l₁.take m = l₂.take m)
    (hd : (l₁.drop m).Perm (l₂.drop m)) : (l₁.drop c).Perm (l₂.drop c) := by
  have key : ∀ (l : List α), c ≤ m → m ≤ l.length → l.drop c = (l.take m).drop c ++ l.drop m := by
    intro l h1 h2
    conv_lhs => rw [← List.take_append_drop m l]
    rw [List.drop_append_of_le_length]
    rw [List.length_take]
    omega
  rw [key l₁ hcm hm, key l₂ hcm (hlen ▸ hm), ht]
  exact List.Perm.append_left _ hd

/-- Invariant of the probe loop: starting from a group `[beg, e)` of
elements equal to the head `data[beg]` and a scanned gap `[e, probe)` of
elements not equal to it, the loop preserves the prefix before `e`,
permutes the tail from `e`, and ends with the group `[beg, e')` holding
exactly the matching elements and everything in `[e', maxn)` not
matching. -/
theorem probeLoop_spec (eq : α → α → Bool) [Inhabited α] (maxn beg : Nat)
    (data : List α) (e probe : Nat) :
    data.length = maxn → beg < e → e < probe → probe ≤ maxn →
    (∀ i, beg ≤ i → i < e → eq (data.getD i default) (data.getD beg default) = true) →
    (∀ i, e ≤ i → i < probe → eq (data.getD i default) (data.getD beg default) = false) →
    ((probeLoop eq maxn beg data e probe).1.length = maxn ∧
      e ≤ (probeLoop eq maxn beg data e probe).2 ∧
      (probeLoop eq maxn beg data e probe).2 < maxn ∧
      (probeLoop eq maxn beg data e probe).1.take e = data.take e ∧
      ((probeLoop eq maxn beg data e probe).1.drop e).Perm (data.drop e) ∧
      (∀ i, beg ≤ i → i < (probeLoop eq maxn beg data e probe).2 →
        eq ((probeLoop eq maxn beg data e probe).1.getD i default)
          ((probeLoop eq maxn beg data e probe).1.getD beg default) = true) ∧
      (∀ i, (probeLoop eq maxn beg data e probe).2 ≤ i → i < maxn →
        eq ((probeLoop eq maxn beg data e probe).1.getD i default)
          ((probeLoop eq maxn beg data e probe).1.getD beg default) = false)) := by
  induction data, e, probe using probeLoop.induct eq maxn beg with
  | case1 data e probe h1 h2 ih =>
      intro hlen hbe hep hpm hhom hmiss
      have hpd : probe < data.length := hlen ▸ h1
      have hed : e < data.length := lt_trans (hep.trans_le (Nat.le_refl probe)) hpd
      have hlen1 : (swapIdx data probe e).length = data.length := length_swapIdx data probe e
      have hgetD : ∀ k, (swapIdx data probe e).getD k default =
          if k = e then data.getD probe default
          else if k = probe then data.getD e default
          else data.getD k default := fun k => getD_swapIdx data probe e k hpd hed default
      have hbeg1 : (swapIdx data probe e).getD beg default = data.getD beg default := by
        rw [hgetD beg, if_neg (by omega), if_neg (by omega)]
      have hhom1 : ∀ i, beg ≤ i → i < e + 1 →
          eq ((swapIdx data probe e).getD i default)
            ((swapIdx data probe e).getD beg default) = true := by
        intro i hbi hie
        rw [hbeg1, hgetD i]
        by_cases hie' : i = e
        · rw [if_pos hie']
          exact h2
        · rw [if_neg hie', if_neg (by omega)]
          exact hhom i hbi (by omega)
      have hmiss1 : ∀ i, e + 1 ≤ i → i < probe + 1 →
          eq ((swapIdx data probe e).getD i default)
            ((swapIdx data probe e).getD beg default) = false := by
        intro i hei hip
        rw [hbeg1, hgetD i, if_neg (by omega)]
        by_cases hip' : i = probe
        · rw [if_pos hip']
          exact hmiss e (Nat.le_refl e) hep
        · rw [if_neg hip']
          exact hmiss i (by omega) (by omega)
      obtain ⟨c1, c2, c3, c4, c5, c6, c7⟩ :=
        ih (hlen1.trans hlen) (by omega) (by omega) (by omega) hhom1 hmiss1
      rw [probeLoop, if_pos h1, if_pos h2]
      have htake : (probeLoop eq maxn beg (swapIdx data probe e) (e + 1) (probe + 1)).1.take e =
          data.take e := by
        have t1 : (probeLoop eq maxn beg (swapIdx data probe e) (e + 1) (probe + 1)).1.take e =
            ((probeLoop eq maxn beg (swapIdx data probe e) (e + 1) (probe + 1)).1.take (e + 1)).take e := by
          rw [List.take_take, Nat.min_eq_left (Nat.le_succ e)]
        rw [t1, c4, List.take_take, Nat.min_eq_left (Nat.le_succ e)]
        exact swapIdx_take_eq data probe e e (by omega) (Nat.le_refl e)
      refine ⟨c1, by omega, c3, htake, ?_, c6, c7⟩
      have hd1 : ((probeLoop eq maxn beg (swapIdx data probe e) (e + 1) (probe + 1)).1.drop e).Perm
          ((swapIdx data probe e).drop e) := by
        refine drop_perm_of_take_eq (Nat.le_succ e) ?_ ?_ c4 c5
        · rw [c1]
          omega
        · rw [c1, hlen1, hlen]
      exact hd1.trans (swapIdx_drop_perm data probe e e (by omega) (Nat.le_refl e) hpd hed)
  | case2 data e probe h1 h2 ih =>
      intro hlen hbe hep hpm hhom hmiss
      have h2' : eq (data.getD probe default) (data.getD beg default) = false :=
        Bool.not_eq_true _ ▸ h2
      have hmiss1 : ∀ i, e ≤ i → i < probe + 1 →
          eq (data.getD i default) (data.getD beg default) = false := by
        intro i hei hip
        by_cases hip' : i = probe
        · rw [hip']
          exact h2'
        · exact hmiss i hei (by omega)
      obtain ⟨c1, c2, c3, c4, c5, c6, c7⟩ :=
        ih hlen hbe (by omega) (by omega) hhom hmiss1
      rw [probeLoop, if_pos h1, if_neg h2]
      exact ⟨c1, c2, c3, c4, c5, c6, c7⟩
  | case3 data e probe h1 =>
      intro hlen hbe hep hpm hhom hmiss
      rw [probeLoop, if_neg h1]
      have hpm' : probe = maxn := by omega
      exact ⟨hlen, Nat.le_refl e, by omega, rfl, List.Perm.refl _, hhom,
        fun i hei him => hmiss i hei (by omega)⟩

/-- The element at an in-bounds position at or past `c` occurs in
`l.drop c`. -/
theorem getD_mem_drop (l : List α) (c i : Nat) (hci : c ≤ i) (hi : i < l.length) (d : α) :
    l.getD i d ∈ l.drop c := by
  have hk : (l.drop c)[i - c]? = some (l.getD i d) := by
    rw [List.getElem?_drop, show c + (i - c) = i from by omega,
      List.getElem?_eq_getElem hi, List.getD_eq_getElem l d hi]
  exact List.getElem?_mem hk

/-- Appending a fresh adjacent nonempty range to a chain extends it. -/
theorem rangesChain_append (s : Nat) (gs : List (Nat × Nat)) (b e2 : Nat)
    (h : rangesChain s gs b = true) (hbe : b < e2) :
    rangesChain s (gs ++ [(b, e2)]) e2 = true := by
  induction gs generalizing s with
  | nil =>
      simp only [rangesChain, beq_iff_eq] at h
      subst h
      simp [rangesChain, hbe]
  | cons g rest ih =>
      obtain ⟨b1, e1⟩ := g
      simp only [rangesChain, Bool.and_eq_true] at h
      obtain ⟨⟨hb1, hlt⟩, hrest⟩ := h
      simp only [List.cons_append, rangesChain, Bool.and_eq_true]
      exact ⟨⟨hb1, hlt⟩, ih e1 hrest⟩

/-- Invariant of the outer grouping loop: given a partially formed group
`[beg, e)` and previously completed groups chaining over `[0, beg)` whose
representatives are pairwise distinct and absent from the unprocessed
region, the loop returns data permuting the input from `e` on (with the
prefix before `e` intact) together with ranges that chain over the whole
batch, are each homogeneous under `eq`, and have pairwise non-equivalent
representatives. -/
theorem groupLoop_spec (eq : α → α → Bool) [Inhabited α] (hrefl : ∀ a : α, eq a a = true)
    (maxn : Nat) (data : List α) (groups : List (Nat × Nat)) (beg e : Nat) :
    data.length = maxn → beg < e → e ≤ maxn →
    (∀ i, beg ≤ i → i < e → eq (data.getD i default) (data.getD beg default) = true) →
    rangesChain 0 groups beg = true →
    (∀ g ∈ groups, g.1 < g.2 ∧ g.2 ≤ beg ∧
      (∀ i, g.1 ≤ i → i < g.2 → eq (data.getD i default) (data.getD g.1 default) = true)) →
    (∀ g ∈ groups, ∀ i, beg ≤ i → i < maxn →
      eq (data.getD i default) (data.getD g.1 default) = false) →
    List.Pairwise
      (fun g h => eq (data.getD h.1 default) (data.getD g.1 default) = false) groups →
    ((groupLoop eq maxn data groups beg e).1.length = maxn ∧
      (groupLoop eq maxn data groups beg e).1.take e = data.take e ∧
      ((groupLoop eq maxn data groups beg e).1.drop e).Perm (data.drop e) ∧
      rangesChain 0 (groupLoop eq maxn data groups beg e).2 maxn = true ∧
      (∀ g ∈ (groupLoop eq maxn data groups beg e).2, g.1 < g.2 ∧ g.2 ≤ maxn ∧
        (∀ i, g.1 ≤ i → i < g.2 →
          eq ((groupLoop eq maxn data groups beg e).1.getD i default)
            ((groupLoop eq maxn data groups beg e).1.getD g.1 default) = true)) ∧
      List.Pairwise
        (fun g h => eq ((groupLoop eq maxn data groups beg e).1.getD h.1 default)
          ((groupLoop eq maxn data groups beg e).1.getD g.1 default) = false)
        (groupLoop eq maxn data groups beg e).2) := by
  induction data, groups, beg, e using groupLoop.induct eq maxn with
  | case1 data groups beg e h1 h2 ih =>
      intro hlen hbe hem hcur hchain hgs hsep hpw
      have hcur' : ∀ i, beg ≤ i → i < e + 1 →
          eq (data.getD i default) (data.getD beg default) = true := by
        intro i hbi hie
        by_cases hie' : i = e
        · rw [hie']
          exact h2
        · exact hcur i hbi (by omega)
      obtain ⟨c1, c2, c3, c4, c5, c6⟩ :=
        ih hlen (by omega) (by omega) hcur' hchain hgs hsep hpw
      rw [groupLoop, dif_pos h1, if_pos h2]
      refine ⟨c1, ?_, ?_, c4, c5, c6⟩
      · rw [show (groupLoop eq maxn data groups beg (e + 1)).1.take e =
            ((groupLoop eq maxn data groups beg (e + 1)).1.take (e + 1)).take e from by
              rw [List.take_take, Nat.min_eq_left (Nat.le_succ e)],
          c2, List.take_take, Nat.min_eq_left (Nat.le_succ e)]
      · refine drop_perm_of_take_eq (Nat.le_succ e) ?_ ?_ c2 c3
        · rw [c1]
          omega
        · rw [c1, hlen]
  | case2 data groups beg e h1 h2 p e2 ih =>
      intro hlen hbe hem hcur hchain hgs hsep hpw
      have hmiss : ∀ i, e ≤ i → i < e + 1 →
          eq (data.getD i default) (data.getD beg default) = false := by
        intro i hei hie
        have : i = e := by omega
        rw [this]
        exact Bool.not_eq_true _ ▸ h2
      have hp : p = probeLoop eq maxn beg data e (e + 1) := rfl
      obtain ⟨p1len, pe, plt, ptake, pdrop, phom, pmiss⟩ :=
        probeLoop_spec eq maxn beg data e (e + 1) hlen hbe (Nat.lt_succ_self e) (by omega)
          hcur hmiss
      rw [← hp] at p1len pe plt ptake pdrop phom pmiss
      have he2 : e2 = p.2 := by
        rw [show e2 = p.2 ⊔ e from rfl]
        exact sup_eq_left.mpr pe
      rw [groupLoop, dif_pos h1, if_neg h2]
      show (groupLoop eq maxn p.1 (groups ++ [(beg, e2)]) e2 (e2 + 1)).1.length = maxn ∧
        (groupLoop eq maxn p.1 (groups ++ [(beg, e2)]) e2 (e2 + 1)).1.take e = data.take e ∧
        ((groupLoop eq maxn p.1 (groups ++ [(beg, e2)]) e2 (e2 + 1)).1.drop e).Perm
          (data.drop e) ∧
        rangesChain 0 (groupLoop eq maxn p.1 (groups ++ [(beg, e2)]) e2 (e2 + 1)).2 maxn =
          true ∧
        (∀ g ∈ (groupLoop eq maxn p.1 (groups ++ [(beg, e2)]) e2 (e2 + 1)).2,
          g.1 < g.2 ∧ g.2 ≤ maxn ∧
          (∀ i, g.1 ≤ i → i < g.2 →
            eq ((groupLoop eq maxn p.1 (groups ++ [(beg, e2)]) e2 (e2 + 1)).1.getD i default)
              ((groupLoop eq maxn p.1 (groups ++ [(beg, e2)]) e2 (e2 + 1)).1.getD g.1
                default) = true)) ∧
        List.Pairwise
          (fun g h =>
            eq ((groupLoop eq maxn p.1 (groups ++ [(beg, e2)]) e2 (e2 + 1)).1.getD h.1 default)
              ((groupLoop eq maxn p.1 (groups ++ [(beg, e2)]) e2 (e2 + 1)).1.getD g.1
                default) = false)
          (groupLoop eq maxn p.1 (groups ++ [(beg, e2)]) e2 (e2 + 1)).2
      rw [he2] at ih ⊢
      have hpre : ∀ i, i < e → p.1.getD i default = data.getD i default := by
        intro i hie
        exact getD_eq_of_take_eq ptake hie default
      have hgs' : ∀ g ∈ groups ++ [(beg, p.2)], g.1 < g.2 ∧ g.2 ≤ p.2 ∧
          (∀ i, g.1 ≤ i → i < g.2 →
            eq (p.1.getD i default) (p.1.getD g.1 default) = true) := by
        intro g hg
        rcases List.mem_append.mp hg with hg | hg
        · obtain ⟨hg1, hg2, hg3⟩ := hgs g hg
          refine ⟨hg1, by omega, fun i hgi hig => ?_⟩
          rw [hpre i (by omega), hpre g.1 (by omega)]
          exact hg3 i hgi hig
        · simp only [List.mem_singleton] at hg
          subst hg
          exact ⟨by omega, Nat.le_refl _, phom⟩
      have hsep' : ∀ g ∈ groups ++ [(beg, p.2)], ∀ i, p.2 ≤ i → i < maxn →
          eq (p.1.getD i default) (p.1.getD g.1 default) = false := by
        intro g hg i hpi him
        rcases List.mem_append.mp hg with hg | hg
        · obtain ⟨hg1, hg2, _⟩ := hgs g hg
          have hrep : p.1.getD g.1 default = data.getD g.1 default := hpre g.1 (by omega)
          have hmem : p.1.getD i default ∈ p.1.drop e :=
            getD_mem_drop p.1 e i (by omega) (by rw [p1len]; omega) default
          have hall : ∀ x ∈ data.drop e, eq x (data.getD g.1 default) = false :=
            forall_mem_drop_of_forall_getD default
              (fun j hj1 hj2 => hsep g hg j (by omega) (by omega))
          rw [hrep]
          exact hall _ (pdrop.mem_iff.mp hmem)
        · simp only [List.mem_singleton] at hg
          subst hg
          exact pmiss i hpi him
      have hcross : ∀ g ∈ groups,
          eq (p.1.getD beg default) (p.1.getD g.1 default) = false := by
        intro g hg
        obtain ⟨hg1, hg2, _⟩ := hgs g hg
        rw [hpre beg (by omega), hpre g.1 (by omega)]
        exact hsep g hg beg (Nat.le_refl beg) (by omega)
      have hpw' : List.Pairwise
          (fun g h => eq (p.1.getD h.1 default) (p.1.getD g.1 default) = false)
          (groups ++ [(beg, p.2)]) := by
        rw [List.pairwise_append]
        refine ⟨?_, by simp, ?_⟩
        · refine List.Pairwise.imp_of_mem ?_ hpw
          intro a b ha hb hab
          obtain ⟨ha1, ha2, _⟩ := hgs a ha
          obtain ⟨hb1, hb2, _⟩ := hgs b hb
          rw [hpre a.1 (by omega), hpre b.1 (by omega)]
          exact hab
        · intro a ha b hb
          simp only [List.mem_singleton] at hb
          subst hb
          exact hcross a ha
      obtain ⟨c1, c2, c3, c4, c5, c6⟩ :=
        ih p1len (Nat.lt_succ_self p.2) (by omega)
          (fun i hpi hip => by
            have : i = p.2 := by omega
            rw [this]
            exact hrefl _)
          (rangesChain_append 0 groups beg p.2 hchain (by omega))
          hgs' hsep' hpw'
      refine ⟨c1, ?_, ?_, c4, c5, c6⟩
      · rw [show (groupLoop eq maxn p.1 (groups ++ [(beg, p.2)]) p.2 (p.2 + 1)).1.take e =
            ((groupLoop eq maxn p.1 (groups ++ [(beg, p.2)]) p.2 (p.2 + 1)).1.take
              (p.2 + 1)).take e from by
              rw [List.take_take, Nat.min_eq_left (by omega)],
          c2, List.take_take, Nat.min_eq_left (by omega)]
        exact ptake
      · have hstep : ((groupLoop eq maxn p.1 (groups ++ [(beg, p.2)]) p.2 (p.2 + 1)).1.drop
            e).Perm (p.1.drop e) := by
          refine drop_perm_of_take_eq (by omega) ?_ ?_ c2 c3
          · rw [c1]
            omega
          · rw [c1, p1len]
        exact hstep.trans pdrop
  | case3 data groups beg e h1 =>
      intro hlen hbe hem hcur hchain hgs hsep hpw
      have hemax : e = maxn := by omega
      rw [groupLoop, dif_neg h1]
      refine ⟨hlen, rfl, List.Perm.refl _, ?_, ?_, ?_⟩
      · rw [← hemax]
        exact rangesChain_append 0 groups beg e hchain hbe
      · intro g hg
        rcases List.mem_append.mp hg with hg | hg
        · obtain ⟨hg1, hg2, hg3⟩ := hgs g hg
          exact ⟨hg1, by omega, hg3⟩
        · simp only [List.mem_singleton] at hg
          subst hg
          exact ⟨hbe, by omega, hcur⟩
      · rw [List.pairwise_append]
        refine ⟨hpw, by simp, ?_⟩
        intro a ha b hb
        simp only [List.mem_singleton] at hb
        subst hb
        exact hsep a ha beg (Nat.le_refl beg) (by omega)

/-- Counterexample to C4's ordering clauses on the batch
`[a, b, c, a, b, c]` (`c4Batch`): in the grouped output the two packets of
source `b` appear in reversed arrival order, and the sources appear in the
order `a, c, b` rather than the first-occurrence order `a, b, c`. -/
theorem c4_counterexample_order_not_preserved :
    (group_by_addr c4Batch).1.filter (fun p => p.addr == 1) ≠
      c4Batch.filter (fun p => p.addr == 1) ∧
    firstOccur (addrsOf (group_by_addr c4Batch).1) ≠ firstOccur (addrsOf c4Batch) := by
  have hout : (group_by_addr c4Batch).1 = [⟨0, 0⟩, ⟨0, 3⟩, ⟨2, 2⟩, ⟨2, 5⟩, ⟨1, 4⟩, ⟨1, 1⟩] := by
    simp [group_by_addr, group_by_inner, groupLoop, probeLoop, swapIdx, c4Batch, pktAddrEq]
  rw [hout]
  exact ⟨by decide, by decide⟩

/-- C4 (amended): for every nonempty received batch, `group_by_addr`
produces a permutation of the batch whose ranges are consecutive, cover
the batch exactly, are each homogeneous in source address, and carry
pairwise distinct source addresses — so each distinct source occupies
exactly one contiguous range.  Neither the across-source order nor the
within-source arrival order is guaranteed
(`c4_counterexample_order_not_preserved`). -/
theorem c4_grouping_amended (data : List Packet) (hne : data ≠ []) :
    ((group_by_addr data).1.Perm data) ∧
    rangesChain 0 (group_by_addr data).2 data.length = true ∧
    (∀ g ∈ (group_by_addr data).2, g.1 < g.2 ∧ g.2 ≤ data.length ∧
      (∀ i, g.1 ≤ i → i < g.2 →
        ((group_by_addr data).1.getD i default).addr =
          ((group_by_addr data).1.getD g.1 default).addr)) ∧
    ((group_by_addr data).2.map
      (fun g => ((group_by_addr data).1.getD g.1 default).addr)).Nodup := by
  have hlen1 : 1 ≤ data.length := List.length_pos.mpr hne
  obtain ⟨c1, c2, c3, c4, c5, c6⟩ :=
    groupLoop_spec pktAddrEq (fun a => beq_self_eq_true a.addr) data.length data [] 0 1
      rfl Nat.zero_lt_one hlen1
      (fun i h0 hi1 => by
        have : i = 0 := by omega
        rw [this]
        exact beq_self_eq_true _)
      rfl
      (fun g hg => absurd hg (List.not_mem_nil g))
      (fun g hg => absurd hg (List.not_mem_nil g))
      List.Pairwise.nil
  simp only [group_by_addr, group_by_inner]
  refine ⟨?_, c4, ?_, ?_⟩
  · conv_lhs => rw [← List.take_append_drop 1 (groupLoop pktAddrEq data.length data [] 0 1).1]
    conv_rhs => rw [← List.take_append_drop 1 data]
    rw [c2]
    exact List.Perm.append_left _ c3
  · intro g hg
    obtain ⟨hg1, hg2, hg3⟩ := c5 g hg
    refine ⟨hg1, hg2, fun i hi1 hi2 => ?_⟩
    have := hg3 i hi1 hi2
    simp only [pktAddrEq] at this
    exact beq_iff_eq.mp this
  · refine List.Pairwise.map _ ?_ c6
    intro a b hab
    simp only [pktAddrEq] at hab
    exact (beq_eq_false_iff_ne.mp hab).symm

/-- Witness for `c4_grouping_amended`: a one-packet batch. -/
theorem c4_grouping_amended_witness :
    ([(⟨3, 0⟩ : Packet)] ≠ []) ∧
    ((group_by_addr [⟨3, 0⟩]).1.Perm [⟨3, 0⟩] ∧
      rangesChain 0 (group_by_addr [⟨3, 0⟩]).2 [(⟨3, 0⟩ : Packet)].length = true ∧
      (∀ g ∈ (group_by_addr [⟨3, 0⟩]).2, g.1 < g.2 ∧ g.2 ≤ [(⟨3, 0⟩ : Packet)].length ∧
        (∀ i, g.1 ≤ i → i < g.2 →
          ((group_by_addr [⟨3, 0⟩]).1.getD i default).addr =
            ((group_by_addr [⟨3, 0⟩]).1.getD g.1 default).addr)) ∧
      ((group_by_addr [⟨3, 0⟩]).2.map
        (fun g => ((group_by_addr [⟨3, 0⟩]).1.getD g.1 default).addr)).Nodup) :=
  ⟨by decide, c4_grouping_amended [⟨3, 0⟩] (by decide)⟩
